import Mathlib

/-!
Verification of the agent-loop core of the obsidian-vertex-ai-plugin
repository, shallowly embedded in Lean 4.

The embedding follows the TypeScript sources:
* `src/services/vertex.ts` — `VertexService` (streaming revision):
  `getAccessToken` (single-flight token cache), `chat` (fallback retry),
  `chatInternal` (SSE line buffering, thinking-block parser, tool dispatch,
  recursive tool follow-up).
* `src/services/vault.ts` (second document in the file) — the older
  non-streaming `VertexService.chatInternal` with its `for (let i = 0; i < 15; i++)`
  tool-iteration loop.
* the chat view (`MastermindChatView.handleSendMessage`) — abort handling and
  the 40-entry history trim.

Strings are modelled as `List Char`; JavaScript `Date.now()` timestamps and
token lifetimes are modelled as `Int` milliseconds/seconds.
-/

namespace VertexPlugin

/-- Character strings of the embedded program. -/
abbrev Str := List Char

/-! ## Generic string helpers (JS `indexOf`, `includes`, `trim`) -/

/-- JavaScript `String.prototype.indexOf` for a substring: the first index at
which `pat` occurs in the string, if any. -/
def idxOfSub (pat : Str) : Str → Option Nat
  | [] => if pat.isEmpty then some 0 else none
  | c :: rest =>
    if pat.isPrefixOf (c :: rest) then some 0
    else (idxOfSub pat rest).map (· + 1)

/-- JavaScript `String.prototype.includes`. -/
def hasSub (s pat : Str) : Bool := (idxOfSub pat s).isSome

/-- Whitespace characters recognised by the model of `trim` / `\s`. -/
def wsChar (c : Char) : Bool := c = ' ' || c = '\t' || c = '\n' || c = '\r'

/-- JavaScript `String.prototype.trim` (both ends). -/
def trimStr (s : Str) : Str :=
  ((s.dropWhile wsChar).reverse.dropWhile wsChar).reverse

/-! ## CredentialBroker: `VertexService.getAccessToken` (vertex.ts lines 30-84)

JavaScript is single threaded: every call to `getAccessToken` runs its
synchronous prefix (the cache check, the in-flight check, and — if neither
applies — flag setting and creation of the refresh promise) atomically, before
any other call or the completion of the in-flight refresh can run.  Each such
prefix is one `brokerStep`.  The refresh promise body performs exactly one
token-exchange `requestUrl` call, provided the credential JSON parses and has
the required fields (`credsOk`); completion of the body is `resolveRefresh`. -/

/-- The token-cache fields of `VertexService` together with instrumentation
counters (`refreshStarts`, `exchangeRequests`) and a fresh-promise supply. -/
structure BrokerState where
  accessToken : Option Str
  tokenExpiry : Int
  isRefreshingToken : Bool
  tokenRefreshPromise : Option Nat
  credsOk : Bool
  nextPromiseId : Nat
  refreshStarts : Nat
  exchangeRequests : Nat
  deriving Repr, DecidableEq

/-- What one `getAccessToken` call hands back to its caller: the cached token
string, or the promise of an (already or newly) in-flight refresh. -/
inductive GetTokenRes where
  | cachedTok (value : Str)
  | awaitPromise (pid : Nat)
  deriving Repr, DecidableEq

/-- `if (this.accessToken && Date.now() < this.tokenExpiry)` — the cached
token is truthy (non-null and non-empty) and not yet expired. -/
def cacheHit (s : BrokerState) (now : Int) : Bool :=
  (match s.accessToken with
   | some v => !v.isEmpty
   | none => false) && decide (now < s.tokenExpiry)

/-- Starting a refresh: set `isRefreshingToken`, install a fresh promise, and
account for the single token-exchange request its body will issue (the body
reaches `requestUrl` exactly once, and only when the credential JSON is
well-formed). -/
def startRefresh (s : BrokerState) : BrokerState :=
  { s with
    isRefreshingToken := true
    tokenRefreshPromise := some s.nextPromiseId
    nextPromiseId := s.nextPromiseId + 1
    refreshStarts := s.refreshStarts + 1
    exchangeRequests := s.exchangeRequests + (if s.credsOk then 1 else 0) }

/-- The synchronous prefix of one `getAccessToken` call (vertex.ts lines
31-40 and 83): cached fast path, join of an in-flight refresh, or start of a
new refresh. -/
def brokerStep (now : Int) (s : BrokerState) : BrokerState × GetTokenRes :=
  if cacheHit s now then
    (s, GetTokenRes.cachedTok (s.accessToken.getD []))
  else
    match s.isRefreshingToken, s.tokenRefreshPromise with
    | true, some pid => (s, GetTokenRes.awaitPromise pid)
    | _, _ => (startRefresh s, GetTokenRes.awaitPromise s.nextPromiseId)

/-- N concurrent `getAccessToken` calls, i.e. N synchronous prefixes executed
back to back before the in-flight refresh (if any) resolves; `times` are the
`Date.now()` values observed by the successive calls. -/
def brokerCalls (s : BrokerState) : List Int → BrokerState × List GetTokenRes
  | [] => (s, [])
  | t :: ts =>
    let (s1, r) := brokerStep t s
    let (s2, rs) := brokerCalls s1 ts
    (s2, r :: rs)

/-- Completion of the refresh promise body at time `rt` with a provider
response carrying `access_token = tok` and `expires_in = lifetime` seconds
(vertex.ts lines 71-79): the cached expiry is `rt + (lifetime - 120) * 1000`
and the in-flight flags are cleared in the `finally` block. -/
def resolveRefresh (rt : Int) (tok : Str) (lifetime : Int) (s : BrokerState) :
    BrokerState :=
  { s with
    accessToken := some tok
    tokenExpiry := rt + (lifetime - 120) * 1000
    isRefreshingToken := false
    tokenRefreshPromise := none }

/-- A cache miss for the state `s` at time `t`. -/
abbrev cacheMiss (s : BrokerState) (t : Int) : Prop := cacheHit s t = false

theorem brokerStep_joins (s : BrokerState) (t : Int) (pid : Nat)
    (hmiss : cacheHit s t = false)
    (href : s.isRefreshingToken = true)
    (hpr : s.tokenRefreshPromise = some pid) :
    brokerStep t s = (s, GetTokenRes.awaitPromise pid) := by
  simp [brokerStep, hmiss, href, hpr]

theorem brokerCalls_all_join (s : BrokerState) (times : List Int) (pid : Nat)
    (hmiss : ∀ t ∈ times, cacheMiss s t)
    (href : s.isRefreshingToken = true)
    (hpr : s.tokenRefreshPromise = some pid) :
    brokerCalls s times =
      (s, List.replicate times.length (GetTokenRes.awaitPromise pid)) := by
  induction times with
  | nil => simp [brokerCalls]
  | cons t ts ih =>
    have h1 : brokerStep t s = (s, GetTokenRes.awaitPromise pid) :=
      brokerStep_joins s t pid (hmiss t (by simp)) href hpr
    have h2 := ih (fun u hu => hmiss u (by simp [hu]))
    simp [brokerCalls, h1, h2, List.replicate]

theorem startRefresh_fields (s : BrokerState) :
    (startRefresh s).accessToken = s.accessToken ∧
    (startRefresh s).tokenExpiry = s.tokenExpiry ∧
    (startRefresh s).isRefreshingToken = true ∧
    (startRefresh s).tokenRefreshPromise = some s.nextPromiseId := by
  simp [startRefresh]

theorem cacheHit_startRefresh (s : BrokerState) (t : Int) :
    cacheHit (startRefresh s) t = cacheHit s t := by
  simp [cacheHit, startRefresh]

/-- C1: in a cache-miss episode, N concurrent `getAccessToken` calls coalesce
into exactly one refresh — one token-exchange request is issued in total, and
every caller receives the promise of that single refresh; callers that arrive
while a refresh is already in flight start no further refresh and receive the
in-flight promise. -/
theorem getAccessToken_single_flight (s : BrokerState) (t0 : Int)
    (times : List Int)
    (hmiss0 : cacheMiss s t0) (hmiss : ∀ t ∈ times, cacheMiss s t)
    (href : s.isRefreshingToken = false) (hcred : s.credsOk = true) :
    (brokerCalls s (t0 :: times)).1.exchangeRequests = s.exchangeRequests + 1 ∧
    (brokerCalls s (t0 :: times)).1.refreshStarts = s.refreshStarts + 1 ∧
    (brokerCalls s (t0 :: times)).2 =
      List.replicate (t0 :: times).length
        (GetTokenRes.awaitPromise s.nextPromiseId) ∧
    (∀ pid : Nat, s.tokenRefreshPromise = some pid →
      ∀ u : Int, cacheMiss s u →
        brokerStep u { s with isRefreshingToken := true } =
          ({ s with isRefreshingToken := true }, GetTokenRes.awaitPromise pid)) := by
  have hstep0 : brokerStep t0 s =
      (startRefresh s, GetTokenRes.awaitPromise s.nextPromiseId) := by
    simp [brokerStep, hmiss0, href]
  have hmiss' : ∀ t ∈ times, cacheMiss (startRefresh s) t := by
    intro t ht
    rw [cacheMiss, cacheHit_startRefresh]
    exact hmiss t ht
  have hrest := brokerCalls_all_join (startRefresh s) times s.nextPromiseId
    hmiss' (by simp [startRefresh]) (by simp [startRefresh])
  have hfold : brokerCalls s (t0 :: times) =
      (startRefresh s,
        GetTokenRes.awaitPromise s.nextPromiseId ::
          List.replicate times.length (GetTokenRes.awaitPromise s.nextPromiseId)) := by
    simp only [brokerCalls, hstep0, hrest]
  refine ⟨?_, ?_, ?_, ?_⟩
  · rw [hfold]; simp [startRefresh, hcred]
  · rw [hfold]; simp [startRefresh]
  · rw [hfold]; simp [List.replicate]
  · intro pid hpid u hu
    have hu' : cacheHit
        ⟨s.accessToken, s.tokenExpiry, true, some pid, s.credsOk,
          s.nextPromiseId, s.refreshStarts, s.exchangeRequests⟩ u = false := by
      simpa [cacheMiss, cacheHit] using hu
    simp [brokerStep, hpid, hu']

/-- Witness for `getAccessToken_single_flight`: three concurrent calls on a
concrete cache-missing broker state issue exactly one exchange request and all
receive promise 0. -/
theorem getAccessToken_single_flight_witness :
    (cacheMiss ⟨none, 0, false, none, true, 0, 0, 0⟩ 5 ∧
      (∀ t ∈ [6, (7 : Int)], cacheMiss ⟨none, 0, false, none, true, 0, 0, 0⟩ t)) ∧
    ((brokerCalls ⟨none, 0, false, none, true, 0, 0, 0⟩ [5, 6, 7]).1.exchangeRequests = 1 ∧
      (brokerCalls ⟨none, 0, false, none, true, 0, 0, 0⟩ [5, 6, 7]).2 =
        List.replicate 3 (GetTokenRes.awaitPromise 0)) := by
  refine ⟨⟨by decide, by decide⟩, ?_, ?_⟩
  · exact (getAccessToken_single_flight ⟨none, 0, false, none, true, 0, 0, 0⟩
      5 [6, 7] (by decide) (by decide) (by decide) (by decide)).1
  · exact (getAccessToken_single_flight ⟨none, 0, false, none, true, 0, 0, 0⟩
      5 [6, 7] (by decide) (by decide) (by decide) (by decide)).2.2.1

/-- C7: the cached fast path returns the cached token with no state change
(in particular zero network requests), and a token produced by a refresh that
resolved at `rt` with provider-reported lifetime `lifetime` (seconds) is
recorded with expiry `rt + (lifetime - 120) * 1000`, so any time `t` at which
the cache still hits lies more than 120 (hence at least 60) seconds before
the provider-reported expiry `rt + lifetime * 1000`. -/
theorem getAccessToken_cache_fast_path (s : BrokerState) (now : Int) (v : Str)
    (hv : s.accessToken = some v) (hne : v ≠ [])
    (hfresh : now < s.tokenExpiry) :
    brokerStep now s = (s, GetTokenRes.cachedTok v) ∧
    (∀ (rt lifetime : Int) (tok : Str) (s0 : BrokerState),
      (resolveRefresh rt tok lifetime s0).tokenExpiry =
        rt + (lifetime - 120) * 1000) ∧
    (∀ (rt lifetime t : Int) (tok : Str) (s0 : BrokerState),
      cacheHit (resolveRefresh rt tok lifetime s0) t = true →
      (rt + lifetime * 1000) - t > 60000) := by
  refine ⟨?_, ?_, ?_⟩
  · have hhit : cacheHit s now = true := by
      simp [cacheHit, hv, hne, hfresh, List.isEmpty_iff]
    simp [brokerStep, hhit, hv]
  · intro rt lifetime tok s0
    simp [resolveRefresh]
  · intro rt lifetime t tok s0 hhit
    have hlt : t < rt + (lifetime - 120) * 1000 := by
      simp only [cacheHit, resolveRefresh, Bool.and_eq_true, decide_eq_true_eq] at hhit
      exact hhit.2
    nlinarith [hlt]

/-- Witness for `getAccessToken_cache_fast_path` at a concrete cached state:
token `"tk"` with expiry 1000 at `now = 10` is returned from cache. -/
theorem getAccessToken_cache_fast_path_witness :
    brokerStep 10 ⟨some ['t', 'k'], 1000, false, none, true, 0, 0, 0⟩ =
      (⟨some ['t', 'k'], 1000, false, none, true, 0, 0, 0⟩,
        GetTokenRes.cachedTok ['t', 'k']) :=
  (getAccessToken_cache_fast_path ⟨some ['t', 'k'], 1000, false, none, true, 0, 0, 0⟩
    10 ['t', 'k'] rfl (by decide) (by decide)).1

/-! ## FallbackPolicy: `VertexService.chat` (vertex.ts lines 285-312)

`chat` first awaits `getAccessToken` outside the `try` block, so a token
refresh failure propagates before any model attempt.  The `try` wraps one
`chatInternal` attempt; its `catch` classifies `error.message` and performs at
most one further `chatInternal` call, whose own failure is not caught. -/

/-- One `chatInternal` attempt, identified by the `this.modelId` field value
and the location argument it is invoked with. -/
structure ChatAttempt where
  modelId : Str
  location : Str
  deriving Repr, DecidableEq

/-- The default region `'us-central1'`. -/
def usCentral1 : Str := "us-central1".toList

/-- The known-good fallback model `'gemini-2.0-flash-exp'`. -/
def safeModel : Str := "gemini-2.0-flash-exp".toList

/-- Diagnostic marker `'404'`. -/
def pat404 : Str := "404".toList

/-- Diagnostic marker `'not found'`. -/
def patNotFound : Str := "not found".toList

/-- Diagnostic marker `'400'`. -/
def pat400 : Str := "400".toList

/-- `const location = this.location || 'us-central1'`. -/
def effLocation (location0 : Str) : Str :=
  if location0.isEmpty then usCentral1 else location0

/-- The `try`/`catch` body of `chat` once the effective location is fixed:
one attempt, then the catch-classified fallback. -/
def vertexChatGo (modelId0 location : Str)
    (run : ChatAttempt → Except Str Str) : Except Str Str × List ChatAttempt :=
  let a1 : ChatAttempt := ⟨modelId0, location⟩
  match run a1 with
  | .ok v => (.ok v, [a1])
  | .error e =>
    let isConfigError : Bool :=
      hasSub e pat404 || hasSub e patNotFound || hasSub e pat400
    if (location != usCentral1) && isConfigError then
      (run ⟨safeModel, usCentral1⟩, [a1, ⟨safeModel, usCentral1⟩])
    else if hasSub e pat400 && (modelId0 != safeModel) then
      (run ⟨safeModel, location⟩, [a1, ⟨safeModel, location⟩])
    else
      (.error e, [a1])

/-- `VertexService.chat`: `tokenRes` is the outcome of `getAccessToken`
(awaited before the `try`), `modelId0`/`location0` the service's settings
fields, and `run` the outcome of one `chatInternal` attempt.  Returns the
overall outcome together with the list of `chatInternal` attempts made. -/
def vertexChat (tokenRes : Except Str Str) (modelId0 location0 : Str)
    (run : ChatAttempt → Except Str Str) : Except Str Str × List ChatAttempt :=
  match tokenRes with
  | .error e => (.error e, [])
  | .ok _tok => vertexChatGo modelId0 (effLocation location0) run

/-- C3: (1) a first attempt failing with a diagnostic containing `'404'` or
`'not found'` while the effective region is not `us-central1` triggers exactly
one retry, against the safe default model in `us-central1`, and the retry's
outcome — success or failure — is returned unconditionally; (2) a token
refresh failure propagates with zero attempts; (3) an error carrying none of
the `'404'`/`'not found'`/`'400'` markers (in particular an auth-class
diagnostic) is propagated with no retry; (4) no invocation ever makes more
than two attempts. -/
theorem chat_fallback_policy :
    (∀ (tok modelId0 location0 e : Str) (run : ChatAttempt → Except Str Str),
      run ⟨modelId0, effLocation location0⟩ = .error e →
      effLocation location0 ≠ usCentral1 →
      (hasSub e pat404 = true ∨ hasSub e patNotFound = true) →
      vertexChat (.ok tok) modelId0 location0 run =
        (run ⟨safeModel, usCentral1⟩,
          [⟨modelId0, effLocation location0⟩, ⟨safeModel, usCentral1⟩])) ∧
    (∀ (e modelId0 location0 : Str) (run : ChatAttempt → Except Str Str),
      vertexChat (.error e) modelId0 location0 run = (.error e, [])) ∧
    (∀ (tok modelId0 location0 e : Str) (run : ChatAttempt → Except Str Str),
      run ⟨modelId0, effLocation location0⟩ = .error e →
      hasSub e pat404 = false → hasSub e patNotFound = false →
      hasSub e pat400 = false →
      vertexChat (.ok tok) modelId0 location0 run =
        (.error e, [⟨modelId0, effLocation location0⟩])) ∧
    (∀ (tokenRes : Except Str Str) (modelId0 location0 : Str)
        (run : ChatAttempt → Except Str Str),
      (vertexChat tokenRes modelId0 location0 run).2.length ≤ 2) := by
  refine ⟨?_, ?_, ?_, ?_⟩
  · intro tok modelId0 location0 e run hrun hloc h404
    have hcfg : (hasSub e pat404 || hasSub e patNotFound || hasSub e pat400) = true := by
      rcases h404 with h | h <;> simp [h]
    simp [vertexChat, vertexChatGo, hrun, hcfg, bne_iff_ne, hloc]
  · intro e modelId0 location0 run
    simp [vertexChat]
  · intro tok modelId0 location0 e run hrun h1 h2 h3
    simp [vertexChat, vertexChatGo, hrun, h1, h2, h3]
  · intro tokenRes modelId0 location0 run
    rcases tokenRes with e | tok
    · simp [vertexChat]
    · simp only [vertexChat, vertexChatGo]
      rcases hr : run ⟨modelId0, effLocation location0⟩ with e | v
      · split
        · simp
        · split
          · simp
          · split <;> simp
      · simp

/-- A scripted attempt runner for the fallback witness: the first attempt (in
`europe-west4`) fails with a 404 diagnostic, the fallback attempt (in
`us-central1`) fails too. -/
def fallbackRunW : ChatAttempt → Except Str Str := fun a =>
  if a.location == usCentral1 then .error ("HTTP Error 500: backend down".toList)
  else .error ("API Error 404: model was not found".toList)

/-- A scripted attempt runner for the no-retry witness: the attempt fails with
an auth-class diagnostic carrying none of the fallback markers. -/
def authRunW : ChatAttempt → Except Str Str := fun _ =>
  .error ("HTTP Error 401: unauthorized".toList)

/-- Witness for `chat_fallback_policy` on concrete runs: the 404-class failure
in `europe-west4` yields exactly the two recorded attempts and propagates the
fallback failure; the auth-class failure is propagated with a single attempt;
a token refresh failure makes no attempt. -/
theorem chat_fallback_policy_witness :
    vertexChat (.ok ("tk".toList)) ("gemini-1.5-pro".toList)
        ("europe-west4".toList) fallbackRunW =
      (.error ("HTTP Error 500: backend down".toList),
        [⟨"gemini-1.5-pro".toList, "europe-west4".toList⟩,
          ⟨safeModel, usCentral1⟩]) ∧
    vertexChat (.error ("Failed to refresh token: denied".toList))
        ("gemini-1.5-pro".toList) ("europe-west4".toList) fallbackRunW =
      (.error ("Failed to refresh token: denied".toList), []) ∧
    vertexChat (.ok ("tk".toList)) ("gemini-1.5-pro".toList)
        ("europe-west4".toList) authRunW =
      (.error ("HTTP Error 401: unauthorized".toList),
        [⟨"gemini-1.5-pro".toList, "europe-west4".toList⟩]) := by
  refine ⟨?_, ?_, ?_⟩
  · have h := chat_fallback_policy.1 ("tk".toList) ("gemini-1.5-pro".toList)
      ("europe-west4".toList) ("API Error 404: model was not found".toList)
      fallbackRunW (by rfl) (by decide) (Or.inl (by decide))
    simpa [fallbackRunW] using h
  · exact chat_fallback_policy.2.1 ("Failed to refresh token: denied".toList)
      ("gemini-1.5-pro".toList) ("europe-west4".toList) fallbackRunW
  · exact chat_fallback_policy.2.2.1 ("tk".toList) ("gemini-1.5-pro".toList)
      ("europe-west4".toList) ("HTTP Error 401: unauthorized".toList)
      authRunW (by rfl) (by decide) (by decide) (by decide)

/-! ## ToolExecutor: the tool dispatch loop of `VertexService.chatInternal`
(vertex.ts lines 725-807)

Each buffered `functionCall` is dispatched by name through an `if`/`else if`
chain inside a `try`; any exception thrown by a provider (or by the
`run_terminal_command` security check) is caught and normalized into
`{status: 'error', message}`; an unrecognized name yields
`{status: 'error', message: 'Unknown tool: <name>'}`.  `run_terminal_command`
and `fetch_url` additionally have inner `try`/`catch` blocks of their own.
Provider calls that can throw are modelled as `Except Str _`; the payload
shapes of the source's result objects are collapsed to lists of their string
fields, in source order. -/

/-- The properties of a `functionCall.args` object that the dispatch reads. -/
structure ToolArgs where
  path : Str
  content : Str
  query : Str
  oldPath : Str
  newPath : Str
  header : Str
  command : Str
  url : Str
  prompt : Str
  deriving Repr, DecidableEq

/-- A buffered `functionCall` part. -/
structure FnCall where
  name : Str
  args : ToolArgs
  deriving Repr, DecidableEq

/-- The `result` value a dispatch branch produces: a provider's raw return
value (which carries no `status` field), a `{status: 'success', ...}` object
(string fields in source order), or a `{status: 'error', message}` object. -/
inductive ToolResult where
  | rawPayload (v : Str)
  | successRes (payload : List Str)
  | errorRes (message : Str)
  deriving Repr, DecidableEq

/-- The `status` property of a result: `undefined` on raw payloads. -/
def statusOf : ToolResult → Option Str
  | .rawPayload _ => none
  | .successRes _ => some ("success".toList)
  | .errorRes _ => some ("error".toList)

/-- The capability providers the dispatch calls (vaultService methods,
`execAsync`, `requestUrl`, plus the `confirmDestructive` setting read by the
terminal security check).  `Except.error` models a thrown exception. -/
structure ToolProviders where
  generateImage : Str → Except Str Str
  listMarkdownFiles : Except Str Str
  getFileContent : Str → Except Str Str
  searchVault : Str → Except Str Str
  createNote : Str → Str → Except Str Unit
  createFolder : Str → Except Str Unit
  listFolder : Str → Except Str Str
  moveFile : Str → Str → Except Str Unit
  deleteFile : Str → Except Str Unit
  appendToNote : Str → Str → Except Str Unit
  prependToNote : Str → Str → Except Str Unit
  updateNoteSection : Str → Str → Str → Except Str Unit
  getTags : Except Str Str
  getLinks : Str → Except Str Str
  confirmDestructive : Bool
  execAsync : Str → Except Str (Str × Str)
  requestUrlGet : Str → Except Str Str

/-- Message of the `run_terminal_command` security-check exception. -/
def msgTerminalBlocked : Str :=
  ("Terminal commands are blocked because 'Confirm Destructive Actions' is enabled. Please disable it in settings to use this feature.").toList

/-- The `'Unknown tool: '` message stem. -/
def unknownToolStem : Str := "Unknown tool: ".toList

/-- The recognized tool names, in dispatch order. -/
def knownToolNames : List Str :=
  [ "generate_image".toList, "list_files".toList, "read_file".toList,
    "search_content".toList, "create_note".toList, "create_folder".toList,
    "list_directory".toList, "move_file".toList, "delete_file".toList,
    "append_to_note".toList, "prepend_to_note".toList, "update_section".toList,
    "get_tags".toList, "get_links".toList, "run_terminal_command".toList,
    "fetch_url".toList ]

/-- The `try` body of the dispatch (vertex.ts lines 732-799): `Except.error`
is an exception escaping to the outer `catch`.  Note that the inner
`try`/`catch` of `run_terminal_command` and `fetch_url` already normalizes
those providers' failures, and the unrecognized-name branch returns a normal
error result rather than throwing. -/
def dispatchRaw (p : ToolProviders) (c : FnCall) : Except Str ToolResult :=
  if c.name = "generate_image".toList then
    (p.generateImage c.args.prompt).map (fun link =>
      .successRes [link, "Image generated successfully. Embed this link in your response.".toList])
  else if c.name = "list_files".toList then
    p.listMarkdownFiles.map .rawPayload
  else if c.name = "read_file".toList then
    (p.getFileContent c.args.path).map .rawPayload
  else if c.name = "search_content".toList then
    (p.searchVault c.args.query).map .rawPayload
  else if c.name = "create_note".toList then
    (p.createNote c.args.path c.args.content).map (fun _ =>
      .successRes ["Note created at ".toList ++ c.args.path])
  else if c.name = "create_folder".toList then
    (p.createFolder c.args.path).map (fun _ =>
      .successRes ["Folder created at ".toList ++ c.args.path])
  else if c.name = "list_directory".toList then
    (p.listFolder c.args.path).map .rawPayload
  else if c.name = "move_file".toList then
    (p.moveFile c.args.oldPath c.args.newPath).map (fun _ =>
      .successRes ["Moved ".toList ++ c.args.oldPath ++ " to ".toList ++ c.args.newPath])
  else if c.name = "delete_file".toList then
    (p.deleteFile c.args.path).map (fun _ =>
      .successRes ["File deleted at ".toList ++ c.args.path])
  else if c.name = "append_to_note".toList then
    (p.appendToNote c.args.path c.args.content).map (fun _ =>
      .successRes ["Appended content to ".toList ++ c.args.path])
  else if c.name = "prepend_to_note".toList then
    (p.prependToNote c.args.path c.args.content).map (fun _ =>
      .successRes ["Prepended content to ".toList ++ c.args.path])
  else if c.name = "update_section".toList then
    (p.updateNoteSection c.args.path c.args.header c.args.content).map (fun _ =>
      .successRes ["Updated section \"".toList ++ c.args.header ++ "\" in ".toList ++ c.args.path])
  else if c.name = "get_tags".toList then
    p.getTags.map (fun tags => .successRes [tags])
  else if c.name = "get_links".toList then
    (p.getLinks c.args.path).map (fun links => .successRes [links])
  else if c.name = "run_terminal_command".toList then
    if p.confirmDestructive then .error msgTerminalBlocked
    else
      match p.execAsync c.args.command with
      | .ok (stdout, stderr) => .ok (.successRes [stdout, stderr])
      | .error e => .ok (.errorRes e)
  else if c.name = "fetch_url".toList then
    match p.requestUrlGet c.args.url with
    | .ok text => .ok (.successRes [text.take 10000])
    | .error e => .ok (.errorRes e)
  else
    .ok (.errorRes (unknownToolStem ++ c.name))

/-- The dispatch with its outer `catch (e) { result = {status:'error',
message: e.message} }` (vertex.ts lines 801-803): a total function — no
exception escapes the dispatch of one tool call. -/
def executeToolCall (p : ToolProviders) (c : FnCall) : ToolResult :=
  match dispatchRaw p c with
  | .ok r => r
  | .error e => .errorRes e

/-- One entry of `executedActions`. -/
structure ToolAction where
  tool : Str
  input : ToolArgs
  output : ToolResult
  deriving Repr, DecidableEq

/-- The dispatch loop over all buffered function calls (vertex.ts line 725):
every call is executed in order; the loop contains no repetition check and no
early exit. -/
def runToolCalls (p : ToolProviders) (calls : List FnCall) : List ToolAction :=
  calls.map (fun c => ⟨c.name, c.args, executeToolCall p c⟩)

/-- C4: the dispatch never lets an exception escape — an unrecognized tool
name yields the normalized `Unknown tool:` error result; every exception the
`try` body lets through (modelled by `dispatchRaw` returning `Except.error`)
is normalized into an error result carrying the exception's message; in
particular the terminal-command security-check exception is normalized, and
every error result has `status = 'error'`. -/
theorem tool_dispatch_never_throws :
    (∀ (p : ToolProviders) (c : FnCall),
      c.name ∉ knownToolNames →
      executeToolCall p c = ToolResult.errorRes (unknownToolStem ++ c.name)) ∧
    (∀ (p : ToolProviders) (c : FnCall) (e : Str),
      dispatchRaw p c = .error e →
      executeToolCall p c = ToolResult.errorRes e) ∧
    (∀ (p : ToolProviders) (c : FnCall),
      c.name = "run_terminal_command".toList → p.confirmDestructive = true →
      executeToolCall p c = ToolResult.errorRes msgTerminalBlocked) ∧
    (∀ (m : Str), statusOf (ToolResult.errorRes m) = some ("error".toList)) := by
  refine ⟨?_, ?_, ?_, ?_⟩
  · intro p c hname
    simp only [knownToolNames, List.mem_cons, not_or] at hname
    obtain ⟨h1, h2, h3, h4, h5, h6, h7, h8, h9, h10, h11, h12, h13, h14, h15,
      h16, h17⟩ := hname
    simp only [executeToolCall, dispatchRaw]
    rw [if_neg h1, if_neg h2, if_neg h3, if_neg h4, if_neg h5, if_neg h6,
      if_neg h7, if_neg h8, if_neg h9, if_neg h10, if_neg h11, if_neg h12,
      if_neg h13, if_neg h14, if_neg h15, if_neg h16]
  · intro p c e h
    simp [executeToolCall, h]
  · intro p c hname hcd
    simp [executeToolCall, dispatchRaw, hname, hcd, msgTerminalBlocked]
  · intro m
    simp [statusOf]

/-- Concrete providers for the dispatch witnesses: every capability succeeds
with a fixed payload except `getFileContent`, which throws. -/
def witnessProviders : ToolProviders where
  generateImage := fun _ => .ok ("link.png".toList)
  listMarkdownFiles := .ok ("a.md,b.md".toList)
  getFileContent := fun path => .error ("File not found or not a markdown file: ".toList ++ path)
  searchVault := fun _ => .ok ("a.md".toList)
  createNote := fun _ _ => .ok ()
  createFolder := fun _ => .ok ()
  listFolder := fun _ => .ok ("a.md".toList)
  moveFile := fun _ _ => .ok ()
  deleteFile := fun _ => .ok ()
  appendToNote := fun _ _ => .ok ()
  prependToNote := fun _ _ => .ok ()
  updateNoteSection := fun _ _ _ => .ok ()
  getTags := .ok ("#tag".toList)
  getLinks := fun _ => .ok ("[[x]]".toList)
  confirmDestructive := true
  execAsync := fun _ => .ok ("out".toList, "".toList)
  requestUrlGet := fun _ => .ok ("<html>".toList)

/-- The arguments object used by the dispatch witnesses. -/
def witnessArgs : ToolArgs :=
  ⟨"a.md".toList, [], [], [], [], [], [], [], []⟩

/-- Witness for `tool_dispatch_never_throws`: an unrecognized name, a
throwing provider (`read_file` on the witness providers), and the blocked
terminal command are all normalized into error results. -/
theorem tool_dispatch_never_throws_witness :
    executeToolCall witnessProviders ⟨"frobnicate".toList, witnessArgs⟩ =
      ToolResult.errorRes (unknownToolStem ++ "frobnicate".toList) ∧
    executeToolCall witnessProviders ⟨"read_file".toList, witnessArgs⟩ =
      ToolResult.errorRes
        ("File not found or not a markdown file: ".toList ++ "a.md".toList) ∧
    executeToolCall witnessProviders ⟨"run_terminal_command".toList, witnessArgs⟩ =
      ToolResult.errorRes msgTerminalBlocked := by
  refine ⟨?_, ?_, ?_⟩
  · exact tool_dispatch_never_throws.1 witnessProviders
      ⟨"frobnicate".toList, witnessArgs⟩ (by decide)
  · exact tool_dispatch_never_throws.2.1 witnessProviders
      ⟨"read_file".toList, witnessArgs⟩
      ("File not found or not a markdown file: ".toList ++ "a.md".toList)
      (by rfl)
  · exact tool_dispatch_never_throws.2.2.1 witnessProviders
      ⟨"run_terminal_command".toList, witnessArgs⟩ rfl rfl

/-- C8 (counterexample): three consecutive identical tool calls
(`read_file` with identical arguments) are all executed by the dispatch loop —
the third call runs like the others and produces a normal action; no loop is
declared and no abort occurs, contrary to the claim. -/
theorem loop_guard_counterexample :
    runToolCalls witnessProviders
        [⟨"list_files".toList, witnessArgs⟩,
          ⟨"list_files".toList, witnessArgs⟩,
          ⟨"list_files".toList, witnessArgs⟩] =
      [⟨"list_files".toList, witnessArgs, ToolResult.rawPayload ("a.md,b.md".toList)⟩,
        ⟨"list_files".toList, witnessArgs, ToolResult.rawPayload ("a.md,b.md".toList)⟩,
        ⟨"list_files".toList, witnessArgs, ToolResult.rawPayload ("a.md,b.md".toList)⟩] ∧
    (runToolCalls witnessProviders
        [⟨"list_files".toList, witnessArgs⟩,
          ⟨"list_files".toList, witnessArgs⟩,
          ⟨"list_files".toList, witnessArgs⟩]).length = 3 := by
  constructor <;> rfl

/-- C8 (amended): the tool dispatch loop of `chatInternal` performs no
repetition detection whatsoever — every issued call, in every run, is executed
in order and yields exactly one action (so runs with three identical
consecutive calls are fully executed rather than aborted, and runs whose two
identical calls are followed by a distinct call likewise never abort). -/
theorem tool_dispatch_executes_every_call :
    ∀ (p : ToolProviders) (calls : List FnCall),
      (runToolCalls p calls).length = calls.length ∧
      (∀ c : FnCall, c ∈ calls →
        (⟨c.name, c.args, executeToolCall p c⟩ : ToolAction) ∈ runToolCalls p calls) ∧
      (∀ c : FnCall,
        runToolCalls p [c, c, c] =
          [⟨c.name, c.args, executeToolCall p c⟩,
            ⟨c.name, c.args, executeToolCall p c⟩,
            ⟨c.name, c.args, executeToolCall p c⟩]) := by
  intro p calls
  refine ⟨?_, ?_, ?_⟩
  · simp [runToolCalls]
  · intro c hc
    simp only [runToolCalls, List.mem_map]
    exact ⟨c, hc, rfl⟩
  · intro c
    simp [runToolCalls]

/-- Witness for `tool_dispatch_executes_every_call`: the membership clause
instantiated on a concrete one-call run. -/
theorem tool_dispatch_executes_every_call_witness :
    (⟨"list_files".toList, witnessArgs,
        executeToolCall witnessProviders ⟨"list_files".toList, witnessArgs⟩⟩ :
      ToolAction) ∈
      runToolCalls witnessProviders [⟨"list_files".toList, witnessArgs⟩] :=
  (tool_dispatch_executes_every_call witnessProviders
    [⟨"list_files".toList, witnessArgs⟩]).2.1
    ⟨"list_files".toList, witnessArgs⟩ (by simp)

/-! ## Iteration budget: the non-streaming `chatInternal` loop
(vault.ts second document, lines 642-753) and the streaming
`chatInternal` recursion (vertex.ts lines 809-818)

The non-streaming revision wraps its request/tool cycle in
`for (let i = 0; i < 15; i++)` and, after the loop,
`throw new Error('Maximum tool use iterations reached.')`.
The streaming revision instead ends its stream handling with
`yield* this.chatInternal(...)` whenever the closed turn buffered at least
one function call — there is no counter and no ceiling on that recursion. -/

/-- A part of the (successful) non-streaming model response. -/
inductive NsPart where
  | txtPart (text : Str)
  | fnPart (call : FnCall)
  deriving Repr, DecidableEq

/-- One non-streaming round trip: a thrown failure (non-200 status, blocked
prompt, safety finish, empty content) or a parsed `candidate.content.parts`
list. -/
inductive NsResponse where
  | failure (msg : Str)
  | respParts (ps : List NsPart)
  deriving Repr, DecidableEq

/-- Outcome of the non-streaming `chatInternal`. -/
inductive NsOutcome where
  | answer (text : Str)
  | thrown (msg : Str)
  deriving Repr, DecidableEq

/-- The iteration-ceiling error message. -/
def maxIterMsg : Str := "Maximum tool use iterations reached.".toList

/-- The `'Empty response from model.'` default answer. -/
def emptyAnswerMsg : Str := "Empty response from model.".toList

/-- `parts.filter(p => p.functionCall)`. -/
def nsFnCalls (ps : List NsPart) : List NsPart :=
  ps.filter (fun p => match p with | .fnPart _ => true | .txtPart _ => false)

/-- `parts.filter(p => p.text).map(p => p.text).join('\n')` — only truthy
(non-empty) text parts contribute. -/
def nsJoinTexts (ps : List NsPart) : Str :=
  List.intercalate ['\n']
    ((ps.filterMap (fun p => match p with
      | .txtPart t => some t
      | .fnPart _ => none)).filter (fun t => !t.isEmpty))

/-- The `for (let i = 0; i < 15; i++)` loop of the non-streaming
`chatInternal`, from loop index `i`; the oracle gives the model response of
each round.  Returns the number of requests issued from round `i` on and the
outcome.  After the loop the source throws `maxIterMsg`. -/
def nsChatLoop (oracle : Nat → NsResponse) (i : Nat) : Nat × NsOutcome :=
  if h : i < 15 then
    match oracle i with
    | .failure m => (1, .thrown m)
    | .respParts ps =>
      if 0 < (nsFnCalls ps).length then
        let (n, o) := nsChatLoop oracle (i + 1)
        (n + 1, o)
      else
        (1, .answer (if (nsJoinTexts ps).isEmpty then emptyAnswerMsg
          else nsJoinTexts ps))
  else
    (0, .thrown maxIterMsg)
termination_by 15 - i

/-- The streaming `chatInternal` tool follow-up recursion observed for `fuel`
rounds from recursion depth `depth`: the oracle gives the function calls
buffered by the closed turn of each round.  `some n` means the invocation
reached a turn without function calls (terminating normally) after `n`
requests; `none` means it is still requesting and recursing after `fuel`
rounds — the source has no iteration counter and no budget error on this
path. -/
def streamToolRounds (oracle : Nat → List FnCall) :
    Nat → Nat → Option Nat
  | 0, _ => none
  | fuel + 1, depth =>
    if (oracle depth).isEmpty then some 1
    else
      match streamToolRounds oracle fuel (depth + 1) with
      | some n => some (n + 1)
      | none => none

/-- C2 (counterexample): in the streaming revision, a model that returns a
function call on every turn drives `chatInternal` through 20 consecutive
tool-execution/request cycles — past any ceiling of 15 — without ever
terminating or raising an iteration-budget error (the recursion at vertex.ts
line 817 has no counter). -/
theorem iteration_budget_counterexample :
    streamToolRounds (fun _ => [⟨"list_files".toList, witnessArgs⟩]) 20 0 =
      none := by
  rfl

/-- C2 (amended): the non-streaming revision issues at most 15 requests per
invocation and, when the model returns function calls on every round, throws
exactly the `'Maximum tool use iterations reached.'` error after 15 cycles;
the streaming revision's recursive tool follow-up has no ceiling: with an
always-tool-calling model it is still cycling after any number of observed
rounds. -/
theorem iteration_budget_by_revision :
    (∀ (oracle : Nat → NsResponse), (nsChatLoop oracle 0).1 ≤ 15) ∧
    (∀ (oracle : Nat → NsResponse),
      (∀ i : Nat, i < 15 → ∃ ps : List NsPart,
        oracle i = .respParts ps ∧ 0 < (nsFnCalls ps).length) →
      nsChatLoop oracle 0 = (15, .thrown maxIterMsg)) ∧
    (∀ (c : FnCall) (fuel depth : Nat),
      streamToolRounds (fun _ => [c]) fuel depth = none) := by
  have hbound : ∀ (oracle : Nat → NsResponse) (k i : Nat), 15 ≤ i + k →
      (nsChatLoop oracle i).1 ≤ 15 - i := by
    intro oracle k
    induction k with
    | zero =>
      intro i hi
      unfold nsChatLoop
      rw [dif_neg (by omega)]
      simp
    | succ k ih =>
      intro i hi
      by_cases h : i < 15
      · unfold nsChatLoop
        rw [dif_pos h]
        rcases horacle : oracle i with m | ps
        · dsimp only
          omega
        · dsimp only
          by_cases hfn : 0 < (nsFnCalls ps).length
          · rw [if_pos hfn]
            rcases hno : nsChatLoop oracle (i + 1) with ⟨n, o⟩
            dsimp only
            have hrec := ih (i + 1) (by omega)
            rw [hno] at hrec
            simp only at hrec
            omega
          · rw [if_neg hfn]
            dsimp only
            omega
      · unfold nsChatLoop
        rw [dif_neg h]
        simp
  have hexh : ∀ (oracle : Nat → NsResponse),
      (∀ i : Nat, i < 15 → ∃ ps : List NsPart,
        oracle i = .respParts ps ∧ 0 < (nsFnCalls ps).length) →
      ∀ (k i : Nat), 15 ≤ i + k → i ≤ 15 →
      nsChatLoop oracle i = (15 - i, .thrown maxIterMsg) := by
    intro oracle hcalls k
    induction k with
    | zero =>
      intro i hi hle
      have hieq : i = 15 := by omega
      subst hieq
      unfold nsChatLoop
      rw [dif_neg (by omega)]
    | succ k ih =>
      intro i hi hle
      by_cases h : i < 15
      · obtain ⟨ps, hps, hfn⟩ := hcalls i h
        unfold nsChatLoop
        rw [dif_pos h, hps]
        dsimp only
        rw [if_pos hfn]
        have hrec := ih (i + 1) (by omega) (by omega)
        rw [hrec]
        dsimp only
        rw [show 15 - (i + 1) + 1 = 15 - i from by omega]
      · have hieq : i = 15 := by omega
        subst hieq
        unfold nsChatLoop
        rw [dif_neg h]
  refine ⟨fun oracle => ?_, fun oracle hcalls => ?_, ?_⟩
  · have := hbound oracle 15 0 (by omega)
    omega
  · have := hexh oracle hcalls 15 0 (by omega) (by omega)
    simpa using this
  · intro c fuel
    induction fuel with
    | zero => intro depth; rfl
    | succ n ih =>
      intro depth
      simp [streamToolRounds, ih (depth + 1)]

/-- Witness for `iteration_budget_by_revision`: a concrete oracle whose every
round is a single function call drives the non-streaming loop to the budget
error after exactly 15 requests. -/
theorem iteration_budget_by_revision_witness :
    nsChatLoop (fun _ => .respParts [.fnPart ⟨"list_files".toList, witnessArgs⟩]) 0 =
      (15, .thrown maxIterMsg) :=
  iteration_budget_by_revision.2.1
    (fun _ => .respParts [.fnPart ⟨"list_files".toList, witnessArgs⟩])
    (fun i _ => ⟨[.fnPart ⟨"list_files".toList, witnessArgs⟩], rfl, by decide⟩)

/-! ## StreamDecoder: SSE line buffering and the thinking parser
(vertex.ts lines 626-709)

The streaming loop keeps `buffer`, splits `buffer + chunk` on `'\n'`,
pops the trailing partial line back into `buffer`, and processes each
complete line: blank/comment lines are skipped, the `data:` tag is stripped,
and the JSON frame is parsed — a parse failure (or a frame without
candidate content parts) is skipped.  Each text part runs through the
thinking-block scanner, whose `isThinking` state persists across parts and
frames, and yields one cumulative progress update; each `functionCall` part
is buffered.  JSON itself is external (`JSON.parse`), so frame parsing is a
parameter `pf`; everything else is translated from the source. -/

/-- First-occurrence index lemma: a found occurrence is an infix. -/
theorem idxOfSub_some_occurrence (pat s : Str) (i : Nat)
    (h : idxOfSub pat s = some i) : pat <:+: s := by
  induction s generalizing i with
  | nil =>
    simp only [idxOfSub] at h
    rcases hp : pat.isEmpty with _ | _
    · rw [hp] at h; simp at h
    · rw [hp] at h
      simp at h
      simp [List.isEmpty_iff.mp hp]
  | cons c rest ih =>
    simp only [idxOfSub] at h
    by_cases hpre : pat.isPrefixOf (c :: rest)
    · exact ((List.isPrefixOf_iff_prefix.mp hpre)).isInfix
    · rw [if_neg hpre] at h
      rcases hrec : idxOfSub pat rest with _ | j
      · rw [hrec] at h; simp at h
      · exact List.infix_cons (ih j hrec)

theorem idxOfSub_none_of_no_occurrence (pat s : Str) (h : ¬ pat <:+: s) :
    idxOfSub pat s = none := by
  rcases hr : idxOfSub pat s with _ | i
  · rfl
  · exact absurd (idxOfSub_some_occurrence pat s i hr) h

/-- A string with fewer backticks than the pattern cannot contain it. -/
theorem idxOfSub_none_of_count (pat s : Str)
    (h : s.count '`' < pat.count '`') : idxOfSub pat s = none := by
  apply idxOfSub_none_of_no_occurrence
  intro hinf
  exact absurd (hinf.sublist.count_le '`') (by omega)

theorem idxOfSub_self_append (p : Char) (pt rest : Str) :
    idxOfSub (p :: pt) ((p :: pt) ++ rest) = some 0 := by
  have hpre : (p :: pt).isPrefixOf ((p :: pt) ++ rest) = true :=
    List.isPrefixOf_iff_prefix.mpr (List.prefix_append _ _)
  simp [idxOfSub, hpre]

/-- The opening marker `'```thinking'`. -/
def thinkingMark : Str := "```thinking".toList

/-- The closing marker `'```'`. -/
def fenceMark : Str := "```".toList

/-- The thinking-block scanner (vertex.ts lines 663-689): the
`while (remaining.length > 0)` loop looking for `'```thinking'` outside a
block (skipping 11 characters on a hit) and for `'```'` inside one (skipping
3), appending the surrounding text to the matching accumulator. -/
def scanText (isT : Bool) (accT accK rem : Str) : Bool × Str × Str :=
  if hrem : rem = [] then (isT, accT, accK)
  else if isT then
    match idxOfSub fenceMark rem with
    | some i => scanText false accT (accK ++ rem.take i) (rem.drop (i + 3))
    | none => (isT, accT, accK ++ rem)
  else
    match idxOfSub thinkingMark rem with
    | some i => scanText true (accT ++ rem.take i) accK (rem.drop (i + 11))
    | none => (isT, accT ++ rem, accK)
termination_by rem.length
decreasing_by
  all_goals
    simp only [List.length_drop]
    have h1 : 0 < rem.length := List.length_pos.mpr hrem
    omega

theorem scanText_nil (isT : Bool) (accT accK : Str) :
    scanText isT accT accK [] = (isT, accT, accK) := by
  unfold scanText
  simp

theorem scanText_notThinking_none (accT accK rem : Str)
    (h : idxOfSub thinkingMark rem = none) :
    scanText false accT accK rem = (false, accT ++ rem, accK) := by
  by_cases hrem : rem = []
  · subst hrem; simp [scanText_nil]
  · unfold scanText
    rw [dif_neg hrem]
    simp [h]

theorem scanText_thinking_none (accT accK rem : Str)
    (h : idxOfSub fenceMark rem = none) :
    scanText true accT accK rem = (true, accT, accK ++ rem) := by
  by_cases hrem : rem = []
  · subst hrem; simp [scanText_nil]
  · unfold scanText
    rw [dif_neg hrem]
    simp [h]

theorem scanText_open (accT accK a : Str) :
    scanText false accT accK (thinkingMark ++ a) =
      scanText true accT accK a := by
  have hne : thinkingMark ++ a ≠ [] := by simp [thinkingMark]
  have hidx : idxOfSub thinkingMark (thinkingMark ++ a) = some 0 := by
    have := idxOfSub_self_append '`' ("``thinking".toList) a
    simpa [thinkingMark] using this
  conv_lhs => rw [scanText]
  rw [dif_neg hne]
  simp only [Bool.false_eq_true, if_false, hidx]
  have hdrop : (thinkingMark ++ a).drop (0 + 11) = a := by
    have h11 : thinkingMark.length = 11 := by decide
    simpa [h11] using List.drop_left thinkingMark a
  simp [hdrop]

/-- `(buffer + chunk).split('\n')` followed by `buffer = lines.pop()`:
the complete lines and the trailing partial line. -/
def chopLines : Str → List Str × Str
  | [] => ([], [])
  | c :: rest =>
    let (ls, buf) := chopLines rest
    if c = '\n' then ([] :: ls, buf)
    else
      match ls with
      | [] => ([], c :: buf)
      | l :: ls2 => ((c :: l) :: ls2, buf)

theorem chopLines_append (x y : Str) :
    chopLines (x ++ y) =
      ((chopLines x).1 ++ (chopLines ((chopLines x).2 ++ y)).1,
        (chopLines ((chopLines x).2 ++ y)).2) := by
  induction x with
  | nil => simp [chopLines]
  | cons c rest ih =>
    rcases hA : chopLines rest with ⟨A, r⟩
    rcases hB : chopLines (r ++ y) with ⟨B1, B2⟩
    have ih2 : chopLines (rest ++ y) = (A ++ B1, B2) := by
      rw [ih, hA]
      dsimp only
      rw [hB]
    by_cases hc : c = '\n'
    · subst hc
      simp only [List.cons_append, chopLines, hA]
      simp [List.append_eq, ih2, hB]
    · rcases A with _ | ⟨a, A2⟩
      · simp only [List.cons_append, chopLines, hA, if_neg hc]
        rcases B1 with _ | ⟨b, Bs⟩
        · simp only [List.append_eq, ih2]
          simp [chopLines, hB, if_neg hc]
        · simp only [List.append_eq, ih2]
          simp [chopLines, hB, if_neg hc]
      · simp only [List.cons_append, chopLines, hA, if_neg hc]
        simp only [List.append_eq, ih2]
        simp [hB]

/-- A content part of one parsed SSE frame: its `text` and `functionCall`
properties (absent properties are `none`). -/
structure FramePart where
  text : Option Str
  functionCall : Option FnCall
  deriving Repr, DecidableEq

/-- One yielded `ChatResponse` progress update (cumulative fields). -/
structure StreamEv where
  text : Str
  isThinking : Bool
  thinkingText : Str
  deriving Repr, DecidableEq

/-- The per-session decode state minus the line buffer: the thinking flag,
the two cumulative accumulators, and the buffered function calls. -/
structure LineState where
  isThinking : Bool
  accText : Str
  accThink : Str
  fns : List FnCall
  deriving Repr, DecidableEq

/-- The `else if (part.functionCall)` branch: push the call verbatim. -/
def pushFn (s : LineState) (p : FramePart) : LineState × List StreamEv :=
  match p.functionCall with
  | some f => ({ s with fns := s.fns ++ [f] }, [])
  | none => (s, [])

/-- Processing one content part: a truthy (non-empty) `text` runs the
thinking scanner and yields one cumulative update; otherwise a present
`functionCall` is buffered. -/
def procPart (s : LineState) (p : FramePart) : LineState × List StreamEv :=
  match p.text with
  | some t =>
    if t = [] then pushFn s p
    else
      let (isT, accT, accK) := scanText s.isThinking s.accText s.accThink t
      ({ s with isThinking := isT, accText := accT, accThink := accK },
        [⟨accT, isT, accK⟩])
  | none => pushFn s p

/-- `for (const part of candidate.content.parts)`. -/
def procParts (s : LineState) : List FramePart → LineState × List StreamEv
  | [] => (s, [])
  | p :: ps =>
    let (s1, e1) := procPart s p
    let (s2, e2) := procParts s1 ps
    (s2, e1 ++ e2)

/-- `line.replace(/^data:\s*/, '')`. -/
def stripDataTag (line : Str) : Str :=
  if ("data:".toList).isPrefixOf line then (line.drop 5).dropWhile wsChar
  else line

/-- Processing one complete line (vertex.ts lines 643-708): skip blank and
comment lines, strip the `data:` tag, trim, skip when empty, parse the frame
with `pf` (a `none` result covers both a JSON parse error, which is caught
and logged, and a frame without candidate content parts), and process the
parts. -/
def processLine (pf : Str → Option (List FramePart)) (s : LineState)
    (line : Str) : LineState × List StreamEv :=
  if (trimStr line).isEmpty ||
      (match line with | c :: _ => c = ':' | [] => false) then (s, [])
  else
    let jsonStr := trimStr (stripDataTag line)
    if jsonStr.isEmpty then (s, [])
    else
      match pf jsonStr with
      | none => (s, [])
      | some parts => procParts s parts

/-- `for (const line of lines)`. -/
def processLines (pf : Str → Option (List FramePart)) (s : LineState) :
    List Str → LineState × List StreamEv
  | [] => (s, [])
  | l :: ls =>
    let (s1, e1) := processLine pf s l
    let (s2, e2) := processLines pf s1 ls
    (s2, e1 ++ e2)

/-- The full decode state: the partial-line buffer plus the line state. -/
structure DecState where
  buffer : Str
  core : LineState
  deriving Repr, DecidableEq

/-- One iteration of `for await (const chunk of stream)` (vertex.ts lines
635-710): split `buffer + chunk`, keep the partial line, process the
complete lines. -/
def processChunk (pf : Str → Option (List FramePart)) (s : DecState)
    (chunk : Str) : DecState × List StreamEv :=
  let (ls, buf) := chopLines (s.buffer ++ chunk)
  let (core2, evs) := processLines pf s.core ls
  (⟨buf, core2⟩, evs)

/-- Decoding an entire chunked delivery. -/
def processChunks (pf : Str → Option (List FramePart)) (s : DecState) :
    List Str → DecState × List StreamEv
  | [] => (s, [])
  | ch :: chs =>
    let (s1, e1) := processChunk pf s ch
    let (s2, e2) := processChunks pf s1 chs
    (s2, e1 ++ e2)

theorem processLines_append (pf : Str → Option (List FramePart))
    (s : LineState) (l1 l2 : List Str) :
    processLines pf s (l1 ++ l2) =
      ((processLines pf (processLines pf s l1).1 l2).1,
        (processLines pf s l1).2 ++
          (processLines pf (processLines pf s l1).1 l2).2) := by
  induction l1 generalizing s with
  | nil => simp [processLines]
  | cons l ls ih =>
    simp only [List.cons_append, processLines]
    rcases h1 : processLine pf s l with ⟨s1, e1⟩
    dsimp only
    simp only [List.append_eq]
    rw [ih s1]
    simp

theorem processChunk_comp (pf : Str → Option (List FramePart))
    (s : DecState) (a b : Str) :
    (processChunk pf (processChunk pf s a).1 b).1 =
      (processChunk pf s (a ++ b)).1 ∧
    (processChunk pf s (a ++ b)).2 =
      (processChunk pf s a).2 ++ (processChunk pf (processChunk pf s a).1 b).2 := by
  rcases hcl : chopLines (s.buffer ++ a) with ⟨lsa, bufa⟩
  rcases hclb : chopLines (bufa ++ b) with ⟨lsb, bufb⟩
  have hful : chopLines (s.buffer ++ (a ++ b)) = (lsa ++ lsb, bufb) := by
    rw [← List.append_assoc]
    rw [chopLines_append (s.buffer ++ a) b, hcl]
    dsimp only
    rw [hclb]
  rcases hpl : processLines pf s.core lsa with ⟨c1, e1⟩
  rcases hpl2 : processLines pf c1 lsb with ⟨c2, e2⟩
  have h1 : processChunk pf s a = (⟨bufa, c1⟩, e1) := by
    simp only [processChunk, hcl, hpl]
  have h2 : processChunk pf ⟨bufa, c1⟩ b = (⟨bufb, c2⟩, e2) := by
    simp only [processChunk, hclb, hpl2]
  have h3 : processChunk pf s (a ++ b) = (⟨bufb, c2⟩, e1 ++ e2) := by
    simp only [processChunk, hful]
    rw [processLines_append, hpl]
    dsimp only
    rw [hpl2]
  rw [h1, h3]
  dsimp only
  rw [h2]
  simp

theorem processChunks_cons (pf : Str → Option (List FramePart))
    (s : DecState) (c : Str) (cs : List Str) :
    processChunks pf s (c :: cs) =
      ((processChunks pf (processChunk pf s c).1 cs).1,
        (processChunk pf s c).2 ++
          (processChunks pf (processChunk pf s c).1 cs).2) := by
  simp only [processChunks]

theorem processChunks_eq_whole (pf : Str → Option (List FramePart))
    (s : DecState) (c : Str) (chunks : List Str) :
    processChunks pf s (c :: chunks) =
      processChunk pf s (c ++ chunks.flatten) := by
  induction chunks generalizing s c with
  | nil =>
    rw [processChunks_cons]
    simp [processChunks]
  | cons ch chs ih =>
    rw [processChunks_cons, ih]
    have hcomp := processChunk_comp pf s c (ch ++ chs.flatten)
    have e1 := hcomp.1
    have e2 := hcomp.2.symm
    rw [e1, e2]
    simp [List.flatten_cons, List.append_assoc]

/-- C5: for every frame parser, every starting line state and every way of
splitting a raw SSE character stream into chunks, chunked decoding produces
exactly the same ordered event sequence — and the same final state, in
particular the same buffered function calls — as decoding the stream
delivered whole: the partial trailing line is carried in `buffer` across
chunk boundaries and only complete lines are parsed. -/
theorem stream_decoder_chunk_invariant :
    ∀ (pf : Str → Option (List FramePart)) (core : LineState)
      (chunks : List Str),
      processChunks pf ⟨[], core⟩ chunks =
        processChunk pf ⟨[], core⟩ chunks.flatten := by
  intro pf core chunks
  cases chunks with
  | nil => simp [processChunks, processChunk, chopLines, processLines]
  | cons c cs => exact processChunks_eq_whole pf ⟨[], core⟩ c cs

theorem procParts_pair (s : LineState) (p q : FramePart) :
    procParts s [p, q] =
      ((procPart (procPart s p).1 q).1,
        (procPart s p).2 ++ ((procPart (procPart s p).1 q).2 ++ [])) := by
  simp only [procParts]

/-- C6 (counterexample): the opening delimiter split between two separately
processed text parts as `` '``' `` then `` '`thinking SECRET' `` is not
recognized — after both parts the scanner is still outside a thinking block,
the reasoning accumulator is empty, and the post-delimiter characters
`' SECRET'` sit in the ordinary text accumulator. -/
theorem thinking_delimiter_split_counterexample :
    procParts ⟨false, [], [], []⟩
        [⟨some ("``".toList), none⟩, ⟨some ("`thinking SECRET".toList), none⟩] =
      (⟨false, "```thinking SECRET".toList, [], []⟩,
        [⟨"``".toList, false, []⟩, ⟨"```thinking SECRET".toList, false, []⟩]) := by
  have h1 : scanText false [] [] ("``".toList) = (false, "``".toList, []) := by
    rw [scanText_notThinking_none [] [] _ (by decide)]
    simp
  have h2 : scanText false ("``".toList) [] ("`thinking SECRET".toList) =
      (false, "```thinking SECRET".toList, []) := by
    rw [scanText_notThinking_none _ [] _ (by decide)]
    decide
  have hp1 : procPart ⟨false, [], [], []⟩ ⟨some ("``".toList), none⟩ =
      (⟨false, "``".toList, [], []⟩, [⟨"``".toList, false, []⟩]) := by
    simp only [procPart]
    rw [if_neg (by decide), h1]
  have hp2 : procPart ⟨false, "``".toList, [], []⟩
      ⟨some ("`thinking SECRET".toList), none⟩ =
      (⟨false, "```thinking SECRET".toList, [], []⟩,
        [⟨"```thinking SECRET".toList, false, []⟩]) := by
    simp only [procPart]
    rw [if_neg (by decide), h2]
  rw [procParts_pair, hp1]
  dsimp only
  rw [hp2]
  simp

/-- C6 (amended): the open/closed delimiter state does carry across
separately processed parts and frames within one decode session — a
`` ```thinking `` delimiter that arrives whole within one text part makes
all following backtick-free characters, including those of later parts,
accumulate as Reasoning — but a delimiter whose characters are split across
two parts (`` '``' `` then `` '`thinking…' ``) is not recognized, and all its
characters land in ordinary Text. -/
theorem thinking_state_across_parts (a b : Str)
    (ha : '`' ∉ a) (hb : '`' ∉ b) (hbne : b ≠ []) :
    procParts ⟨false, [], [], []⟩
        [⟨some (thinkingMark ++ a), none⟩, ⟨some b, none⟩] =
      (⟨true, [], a ++ b, []⟩, [⟨[], true, a⟩, ⟨[], true, a ++ b⟩]) ∧
    procParts ⟨false, [], [], []⟩
        [⟨some ("``".toList), none⟩,
          ⟨some ('`' :: ("thinking".toList ++ a)), none⟩] =
      (⟨false, thinkingMark ++ a, [], []⟩,
        [⟨"``".toList, false, []⟩, ⟨thinkingMark ++ a, false, []⟩]) := by
  have hca : a.count '`' = 0 := List.count_eq_zero.mpr ha
  have hcb : b.count '`' = 0 := List.count_eq_zero.mpr hb
  constructor
  · have h1 : scanText false [] [] (thinkingMark ++ a) = (true, [], a) := by
      rw [scanText_open]
      rw [scanText_thinking_none [] [] a
        (idxOfSub_none_of_count fenceMark a (by rw [hca]; decide))]
      simp
    have h2 : scanText true [] a b = (true, [], a ++ b) :=
      scanText_thinking_none [] a b
        (idxOfSub_none_of_count fenceMark b (by rw [hcb]; decide))
    have hp1 : procPart ⟨false, [], [], []⟩ ⟨some (thinkingMark ++ a), none⟩ =
        (⟨true, [], a, []⟩, [⟨[], true, a⟩]) := by
      simp only [procPart]
      rw [if_neg (by simp [thinkingMark]), h1]
    have hp2 : procPart ⟨true, [], a, []⟩ ⟨some b, none⟩ =
        (⟨true, [], a ++ b, []⟩, [⟨[], true, a ++ b⟩]) := by
      simp only [procPart]
      rw [if_neg hbne, h2]
    rw [procParts_pair, hp1]
    dsimp only
    rw [hp2]
    simp
  · have hsplit2 : idxOfSub thinkingMark ('`' :: ("thinking".toList ++ a)) =
        none := by
      apply idxOfSub_none_of_count
      simp [List.count_cons, List.count_append, hca]
      decide
    have h1 : scanText false [] [] ("``".toList) = (false, "``".toList, []) := by
      rw [scanText_notThinking_none [] [] _ (by decide)]
      simp
    have h2 : scanText false ("``".toList) [] ('`' :: ("thinking".toList ++ a)) =
        (false, thinkingMark ++ a, []) := by
      rw [scanText_notThinking_none _ [] _ hsplit2]
      have : "``".toList ++ '`' :: ("thinking".toList ++ a) =
          thinkingMark ++ a := by
        simp [thinkingMark]
      rw [this]
    have hp1 : procPart ⟨false, [], [], []⟩ ⟨some ("``".toList), none⟩ =
        (⟨false, "``".toList, [], []⟩, [⟨"``".toList, false, []⟩]) := by
      simp only [procPart]
      rw [if_neg (by decide), h1]
    have hp2 : procPart ⟨false, "``".toList, [], []⟩
        ⟨some ('`' :: ("thinking".toList ++ a)), none⟩ =
        (⟨false, thinkingMark ++ a, [], []⟩, [⟨thinkingMark ++ a, false, []⟩]) := by
      simp only [procPart]
      rw [if_neg (by simp), h2]
    rw [procParts_pair, hp1]
    dsimp only
    rw [hp2]
    simp

/-- Witness for `thinking_state_across_parts` at concrete backtick-free
parts: `` '```thinking Reasoning' `` followed by `' more'` accumulates both
tails as Reasoning with empty Text. -/
theorem thinking_state_across_parts_witness :
    procParts ⟨false, [], [], []⟩
        [⟨some (thinkingMark ++ " Reasoning".toList), none⟩,
          ⟨some (" more".toList), none⟩] =
      (⟨true, [], " Reasoning".toList ++ " more".toList, []⟩,
        [⟨[], true, " Reasoning".toList⟩,
          ⟨[], true, " Reasoning".toList ++ " more".toList⟩]) :=
  (thinking_state_across_parts (" Reasoning".toList) (" more".toList)
    (by decide) (by decide) (by decide)).1

/-! ## Frame properties of the chat view and the history trim
(`MastermindChatView.handleSendMessage`, and `chatInternal`'s
`contents = [...history]` at vertex.ts line 589)

JavaScript arrays are mutable references, so the service's copy-on-entry and
the view's conditional appends are modelled over an explicit store of arrays
addressed by reference. -/

/-- One persisted chat turn (`ChatMessage`): role, the single text part, and
the recorded tool actions. -/
structure Turn where
  role : Str
  text : Str
  actions : List ToolAction
  deriving Repr, DecidableEq

/-- A store of JS arrays of turns, addressed by reference. -/
structure ArrStore where
  arrays : List (List Turn)
  deriving Repr, DecidableEq

/-- Reading the array behind reference `r`. -/
def readArr (st : ArrStore) (r : Nat) : List Turn := st.arrays.getD r []

/-- `arr.push(t)` on the array behind `r`. -/
def pushArr (st : ArrStore) (r : Nat) (t : Turn) : ArrStore :=
  ⟨st.arrays.set r (readArr st r ++ [t])⟩

/-- `[...src]`: allocate a fresh array holding a copy of the value `v`. -/
def allocArr (st : ArrStore) (v : List Turn) : ArrStore × Nat :=
  (⟨st.arrays ++ [v]⟩, st.arrays.length)

/-- The turn-appending skeleton of the streaming `chatInternal`: copy the
caller's history into a fresh `contents` array (line 589), push the user
turn (line 596); on each of `rounds` tool rounds push the model
function-call turn and the synthetic tool-response turn (lines 718 and 810)
and recurse with `contents` as the next level's history (line 817), which is
copied again there. -/
def chatTurnRounds (st : ArrStore) (histRef : Nat) (userT modelT toolT : Turn) :
    Nat → ArrStore
  | 0 =>
    let (st1, cRef) := allocArr st (readArr st histRef)
    pushArr st1 cRef userT
  | r + 1 =>
    let (st1, cRef) := allocArr st (readArr st histRef)
    let st2 := pushArr st1 cRef userT
    let st3 := pushArr st2 cRef modelT
    let st4 := pushArr st3 cRef toolT
    chatTurnRounds st4 cRef userT modelT toolT r

/-- The history update at the end of `handleSendMessage` (part_002 lines
257-290): when the signal was aborted the `if (!signal.aborted)` block is
skipped and the persisted history is untouched; otherwise the user and model
turns are pushed and, if the length exceeds 40, the history is replaced by
its `slice(-40)` before saving. -/
def viewUpdateHistory (aborted : Bool) (prior : List Turn)
    (userMsg aiMsg : Turn) : List Turn :=
  if aborted then prior
  else
    let h1 := prior ++ [userMsg, aiMsg]
    if h1.length > 40 then h1.drop (h1.length - 40) else h1

theorem readArr_alloc_lt (st : ArrStore) (v : List Turn) (r : Nat)
    (h : r < st.arrays.length) :
    readArr (allocArr st v).1 r = readArr st r := by
  simp only [readArr, allocArr]
  rw [List.getD_eq_getElem?_getD, List.getD_eq_getElem?_getD,
    List.getElem?_append_left h]

theorem readArr_push_ne (st : ArrStore) (r target : Nat) (t : Turn)
    (h : r ≠ target) :
    readArr (pushArr st target t) r = readArr st r := by
  simp only [readArr, pushArr]
  rw [List.getD_eq_getElem?_getD, List.getD_eq_getElem?_getD,
    List.getElem?_set_ne (by omega)]
  simp [List.getD_eq_getElem?_getD]

theorem pushArr_length (st : ArrStore) (target : Nat) (t : Turn) :
    (pushArr st target t).arrays.length = st.arrays.length := by
  simp [pushArr]

theorem chatTurnRounds_frame (userT modelT toolT : Turn) (rounds : Nat) :
    ∀ (st : ArrStore) (histRef r : Nat), r < st.arrays.length →
      readArr (chatTurnRounds st histRef userT modelT toolT rounds) r =
        readArr st r := by
  induction rounds with
  | zero =>
    intro st histRef r hr
    simp only [chatTurnRounds, allocArr]
    rw [readArr_push_ne _ _ _ _ (by omega)]
    exact readArr_alloc_lt st _ r hr
  | succ n ih =>
    intro st histRef r hr
    simp only [chatTurnRounds, allocArr]
    rw [ih _ _ r (by simp [pushArr, allocArr]; omega)]
    rw [readArr_push_ne _ _ _ _ (by omega), readArr_push_ne _ _ _ _ (by omega),
      readArr_push_ne _ _ _ _ (by omega)]
    exact readArr_alloc_lt st _ r hr

/-- C9: the caller's history array is never mutated by the service — after
any number of tool rounds of `chatInternal` (which operates on the `[...history]`
copy at every recursion level), every array that existed before the call,
the caller's history included, reads back unchanged in length and content;
and the view appends the user and model turns to the persisted history only
when the signal was never aborted: an aborted exchange leaves it untouched. -/
theorem cancelled_chat_preserves_history :
    (∀ (st : ArrStore) (histRef : Nat) (u m t : Turn) (rounds r : Nat),
      r < st.arrays.length →
      readArr (chatTurnRounds st histRef u m t rounds) r = readArr st r) ∧
    (∀ (prior : List Turn) (u a : Turn),
      viewUpdateHistory true prior u a = prior) := by
  constructor
  · intro st histRef u m t rounds r hr
    exact chatTurnRounds_frame u m t rounds st histRef r hr
  · intro prior u a
    simp [viewUpdateHistory]

/-- Witness for `cancelled_chat_preserves_history` on a concrete store: one
prior turn survives two tool rounds unchanged, and an aborted view update
returns the history as it was. -/
theorem cancelled_chat_preserves_history_witness :
    readArr
        (chatTurnRounds ⟨[[⟨"user".toList, "hi".toList, []⟩]]⟩ 0
          ⟨"user".toList, "q".toList, []⟩ ⟨"model".toList, "m".toList, []⟩
          ⟨"user".toList, "t".toList, []⟩ 2) 0 =
      [⟨"user".toList, "hi".toList, []⟩] ∧
    viewUpdateHistory true [⟨"user".toList, "hi".toList, []⟩]
        ⟨"user".toList, "q".toList, []⟩ ⟨"model".toList, "m".toList, []⟩ =
      [⟨"user".toList, "hi".toList, []⟩] := by
  constructor
  · rw [cancelled_chat_preserves_history.1
      ⟨[[⟨"user".toList, "hi".toList, []⟩]]⟩ 0
      ⟨"user".toList, "q".toList, []⟩ ⟨"model".toList, "m".toList, []⟩
      ⟨"user".toList, "t".toList, []⟩ 2 0 (by decide)]
    rfl
  · exact cancelled_chat_preserves_history.2
      [⟨"user".toList, "hi".toList, []⟩] _ _

/-- C10: after every completed (non-aborted) exchange the persisted history
is the `min(length, 40)` most recent of the prior history plus the new user
and model turns — its length never exceeds 40, and when appending would
exceed 40 the oldest entries are dropped. -/
theorem history_trim_bound :
    ∀ (prior : List Turn) (u a : Turn),
      (viewUpdateHistory false prior u a).length ≤ 40 ∧
      viewUpdateHistory false prior u a =
        (prior ++ [u, a]).drop ((prior ++ [u, a]).length - 40) := by
  intro prior u a
  have hfalse : viewUpdateHistory false prior u a =
      (if (prior ++ [u, a]).length > 40 then
        (prior ++ [u, a]).drop ((prior ++ [u, a]).length - 40)
      else prior ++ [u, a]) := by
    simp [viewUpdateHistory]
  rw [hfalse]
  by_cases h : (prior ++ [u, a]).length > 40
  · rw [if_pos h]
    refine ⟨?_, rfl⟩
    simp only [List.length_drop]
    omega
  · rw [if_neg h]
    refine ⟨by omega, ?_⟩
    rw [show (prior ++ [u, a]).length - 40 = 0 from by omega]
    simp

end VertexPlugin
